import Mathlib

/-!
Shallow embedding of `src/modules/TreeWriter.cc` (the Delphes `TreeWriter`
module of this repository) and a verification of the frozen claims about it.

Modelling conventions:

* C++ `Double_t` / `Float_t` values are modelled as `ℚ` with exact
  arithmetic; the claims under study are about which formula each projected
  field is computed by, not about IEEE rounding.
* A `TLorentzVector` is modelled as `Vec4` (components x, y, z, t; for a
  momentum vector Px = x, Py = y, Pz = z, E = t).  Its kinematic member
  functions (`Pt`, `Eta`, `Rapidity`, `Phi`, `CosTheta`, `M`) belong to the
  external ROOT library, which the specification excludes as an external
  collaborator ("the kinematic formulas library"); they are abstracted as a
  bundle of functions `TMathLib` over which every theorem quantifies.
* A `Candidate` is a node of the per-event provenance graph: a scalar
  payload `CandData` plus the three edge lists `children`
  (`GetCandidates()`), `subjets` (`GetSubjets()`) and `tracks`
  (`GetTracks()`).
* `TObjArray::At(0)` yields a null pointer on an empty array, so a value
  obtained that way is an `Option Candidate`, and a `TRefArray` filled by
  `FillParticles` is a `List (Option Candidate)` recording the exact
  sequence of pointers passed to `Add`.
-/

namespace TW

/-- Four-vector (`TLorentzVector`): three spatial components and t (= E for
a momentum vector). -/
structure Vec4 where
  x : ℚ
  y : ℚ
  z : ℚ
  t : ℚ
deriving DecidableEq

/-- Unary minus on a `TLorentzVector` negates all four components
(used by `ProcessMissingET` as `(-momentum)`). -/
def Vec4.neg (v : Vec4) : Vec4 := ⟨-v.x, -v.y, -v.z, -v.t⟩

/-- Three-vector (`TVector3`), used for truth-vertex positions. -/
structure Vec3 where
  x : ℚ
  y : ℚ
  z : ℚ
deriving DecidableEq

/-- The eight scalar fields shared by `SecondaryVertexTrack` and
`TSecondaryVertexTrack`, exactly the fields the helper `copy` transfers. -/
structure SVTrack where
  weight : ℚ
  d0 : ℚ
  z0 : ℚ
  d0err : ℚ
  z0err : ℚ
  momentum : ℚ
  dphi : ℚ
  deta : ℚ
deriving DecidableEq

/-- Helper `copy(const SecondaryVertexTrack&, TSecondaryVertexTrack&)`:
field-wise copy of the eight scalars. -/
def copySVTrack (vxtrk : SVTrack) : SVTrack :=
  { weight := vxtrk.weight
    d0 := vxtrk.d0
    z0 := vxtrk.z0
    d0err := vxtrk.d0err
    z0err := vxtrk.z0err
    momentum := vxtrk.momentum
    dphi := vxtrk.dphi
    deta := vxtrk.deta }

/-- Input-side `SecondaryVertex` (a `TVector3` plus vertex-fit scalars and a
track list).  The scalar fields are declared outside this source slice and
are only ever copied verbatim, so they are uniformly modelled as `ℚ`. -/
structure SecondaryVertexIn where
  X : ℚ
  Y : ℚ
  Z : ℚ
  Lxy : ℚ
  Lsig : ℚ
  decayLengthVariance : ℚ
  nTracks : ℚ
  eFrac : ℚ
  mass : ℚ
  config : ℚ
  tracks_along_jet : List SVTrack
deriving DecidableEq

/-- Output-side `TSecondaryVertex` stored in a jet record. -/
structure TSecondaryVertexOut where
  x : ℚ
  y : ℚ
  z : ℚ
  Lxy : ℚ
  Lsig : ℚ
  decayLengthVariance : ℚ
  nTracks : ℚ
  eFrac : ℚ
  mass : ℚ
  config : ℚ
  tracks : List SVTrack
deriving DecidableEq

/-- Scalar payload of a `Candidate` (the `classes/DelphesClasses.h` members
read by `TreeWriter`); a C++ array member `Float_t a[n]` is modelled as
`Fin n → ℚ`. -/
structure CandData where
  UniqueID : Nat
  Momentum : Vec4
  Position : Vec4
  PID : Int
  Status : Int
  IsPU : Int
  M1 : Int
  M2 : Int
  D1 : Int
  D2 : Int
  Charge : Int
  Mass : ℚ
  Eem : ℚ
  Ehad : ℚ
  Edges : Fin 4 → ℚ
  NTimeHits : Int
  IsolationVar : ℚ
  IsolationVarRhoCorr : ℚ
  SumPtCharged : ℚ
  SumPtNeutral : ℚ
  SumPtChargedPU : ℚ
  SumPt : ℚ
  Dxy : ℚ
  SDxy : ℚ
  Xd : ℚ
  Yd : ℚ
  Zd : ℚ
  trkPar : Fin 5 → ℚ
  trkCov : Fin 15 → ℚ
  Area : Vec4
  DeltaEta : ℚ
  DeltaPhi : ℚ
  Flavor : Int
  FlavorAlgo : Int
  FlavorPhys : Int
  BTag : Int
  BTagAlgo : Int
  BTagPhys : Int
  TauTag : Int
  NCharged : Int
  NNeutrals : Int
  Beta : ℚ
  BetaStar : ℚ
  MeanSqDeltaR : ℚ
  PTD : ℚ
  NSubJetsTrimmed : Int
  NSubJetsPruned : Int
  NSubJetsSoftDropped : Int
  FracPt : Fin 5 → ℚ
  Tau : Fin 5 → ℚ
  TrimmedP4 : Fin 5 → Vec4
  PrunedP4 : Fin 5 → Vec4
  SoftDroppedP4 : Fin 5 → Vec4
  primaryVertexTracks : List SVTrack
  secondaryVertices : List SecondaryVertexIn
  hlSecVxTracks : List SVTrack
  hlSvx : SVTrack
  mlSvx : SVTrack
  hlTrk : SVTrack
  truthVertices : List Vec3

/-- A candidate graph node: scalar payload plus the three edge arrays. -/
inductive Candidate where
  | mk (data : CandData) (children : List Candidate)
       (subjets : List Candidate) (tracks : List Candidate)

/-- Scalar payload accessor. -/
def Candidate.data : Candidate → CandData
  | .mk d _ _ _ => d

/-- Accessor for `GetCandidates()`: the ordered children array. -/
def Candidate.children : Candidate → List Candidate
  | .mk _ c _ _ => c

/-- Accessor for `GetSubjets()`. -/
def Candidate.subjets : Candidate → List Candidate
  | .mk _ _ s _ => s

/-- Accessor for `GetTracks()`. -/
def Candidate.tracks : Candidate → List Candidate
  | .mk _ _ _ t => t

@[simp]
theorem Candidate.data_mk (d : CandData) (c s t : List Candidate) :
    (Candidate.mk d c s t).data = d := rfl

@[simp]
theorem Candidate.children_mk (d : CandData) (c s t : List Candidate) :
    (Candidate.mk d c s t).children = c := rfl

@[simp]
theorem Candidate.subjets_mk (d : CandData) (c s t : List Candidate) :
    (Candidate.mk d c s t).subjets = s := rfl

@[simp]
theorem Candidate.tracks_mk (d : CandData) (c s t : List Candidate) :
    (Candidate.mk d c s t).tracks = t := rfl

/-- Abstract interface to the external ROOT kinematics
(`TLorentzVector` / `TMath`), which the specification lists as an excluded
external collaborator.  Component reads (`E`, `Px`, `Py`, `Pz`, `X`, `Y`,
`Z`, `T`) are modelled directly on `Vec4`. -/
structure TMathLib where
  Pt : Vec4 → ℚ
  CosTheta : Vec4 → ℚ
  Eta : Vec4 → ℚ
  Rapidity : Vec4 → ℚ
  Phi : Vec4 → ℚ
  M : Vec4 → ℚ

/-- Constant `c_light = 2.99792458E8`, declared in every projector. -/
def c_light : ℚ := 299792458

/-- Idiom `signPz = (v.Pz() >= 0.0) ? 1.0 : -1.0`, repeated in each
projector. -/
def signPz (v : Vec4) : ℚ := if v.z ≥ 0 then 1 else -1

/-- Idiom `eta = (cosTheta == 1.0 ? signPz*999.9 : v.Eta())` with
`cosTheta = TMath::Abs(v.CosTheta())`, repeated in each projector. -/
def etaProj (K : TMathLib) (v : Vec4) : ℚ :=
  if |K.CosTheta v| = 1 then signPz v * (9999 / 10) else K.Eta v

/-- Idiom `rapidity = (cosTheta == 1.0 ? signPz*999.9 : v.Rapidity())` with
`cosTheta = TMath::Abs(v.CosTheta())`, repeated in each projector. -/
def rapidityProj (K : TMathLib) (v : Vec4) : ℚ :=
  if |K.CosTheta v| = 1 then signPz v * (9999 / 10) else K.Rapidity v

/-- One iteration of the outer loop of `TreeWriter::FillParticles` for one
direct child: a child with no children is appended itself ("particle"
branch); otherwise its first child `At(0)` is appended if that node has no
children ("track" branch); otherwise the child's children are iterated and
each one's first child `At(0)` is appended ("tower" branch, where `At(0)`
on a childless grandchild yields a null pointer, hence `head?`). -/
def flattenChild (child : Candidate) : List (Option Candidate) :=
  match child.children with
  | [] => [some child]
  | first :: _ =>
    if first.children.isEmpty then [some first]
    else child.children.map fun gc => gc.children.head?

/-- The `while((candidate = it1.Next()))` loop of `FillParticles`,
accumulating appends into the output array. -/
def fillLoop : List Candidate → List (Option Candidate) → List (Option Candidate)
  | [], out => out
  | child :: rest, out => fillLoop rest (out ++ flattenChild child)

/-- `TreeWriter::FillParticles(candidate, array)`: `prev` is the previous
content of the output `TRefArray`, discarded by `array->Clear()` before the
loop writes. -/
def FillParticles (candidate : Candidate) (_prev : List (Option Candidate)) :
    List (Option Candidate) :=
  fillLoop candidate.children []

/-- Output record of `ProcessParticles` (class `GenParticle`). -/
structure GenParticleRec where
  UniqueID : Nat
  PID : Int
  Status : Int
  IsPU : Int
  M1 : Int
  M2 : Int
  D1 : Int
  D2 : Int
  Charge : Int
  Mass : ℚ
  E : ℚ
  Px : ℚ
  Py : ℚ
  Pz : ℚ
  Eta : ℚ
  Phi : ℚ
  PT : ℚ
  Rapidity : ℚ
  X : ℚ
  Y : ℚ
  Z : ℚ
  T : ℚ

/-- Entry filled by one iteration of `TreeWriter::ProcessParticles`. -/
def particleEntry (K : TMathLib) (candidate : Candidate) : GenParticleRec :=
  let momentum := candidate.data.Momentum
  let position := candidate.data.Position
  { UniqueID := candidate.data.UniqueID
    PID := candidate.data.PID
    Status := candidate.data.Status
    IsPU := candidate.data.IsPU
    M1 := candidate.data.M1
    M2 := candidate.data.M2
    D1 := candidate.data.D1
    D2 := candidate.data.D2
    Charge := candidate.data.Charge
    Mass := candidate.data.Mass
    E := momentum.t
    Px := momentum.x
    Py := momentum.y
    Pz := momentum.z
    Eta := etaProj K momentum
    Phi := K.Phi momentum
    PT := K.Pt momentum
    Rapidity := rapidityProj K momentum
    X := position.x
    Y := position.y
    Z := position.z
    T := position.t * (1 / 1000) / c_light }

/-- Loop of `TreeWriter::ProcessParticles`: one entry per candidate, in
array order (no sort). -/
def ProcessParticles (K : TMathLib) : List Candidate → List GenParticleRec
  | [] => []
  | candidate :: rest => particleEntry K candidate :: ProcessParticles K rest

/-- Output record of `ProcessVertices` (class `Vertex`). -/
structure VertexRec where
  X : ℚ
  Y : ℚ
  Z : ℚ
  T : ℚ

/-- Entry filled by one iteration of `TreeWriter::ProcessVertices`. -/
def vertexEntry (candidate : Candidate) : VertexRec :=
  let position := candidate.data.Position
  { X := position.x
    Y := position.y
    Z := position.z
    T := position.t * (1 / 1000) / c_light }

/-- Loop of `TreeWriter::ProcessVertices`: one entry per candidate, in
array order (no sort). -/
def ProcessVertices : List Candidate → List VertexRec
  | [] => []
  | candidate :: rest => vertexEntry candidate :: ProcessVertices rest

/-- Debug helper `compare(double quant1, double quant2, ...)`: true when
`|quant1 - quant2| < 1e-15` or `|(quant1 - quant2)/quant1| <= 1e-9`.  When
`quant1 = 0` and the absolute test has already failed, the C++ relative
quotient is an IEEE infinity, which exceeds the relative tolerance, so the
function returns false; the explicit `quant1 = 0` branch reproduces that
outcome in exact arithmetic. -/
def compare (quant1 quant2 : ℚ) : Bool :=
  if |quant1 - quant2| < 1 / 10 ^ 15 then true
  else if quant1 = 0 then false
  else if |(quant1 - quant2) / quant1| > 1 / 10 ^ 9 then false
  else true

/-- Helper `check_d0_z0(Track*)`, stated on the three checked members of the
entry (`Zd`, `Dxy`, `trkPar`), which at the time of the assertion have been
copied verbatim from the candidate.  The `TrackParam::D0` / `TrackParam::Z0`
enum values are declared outside this source slice and are passed as the
indices `iD0`, `iZ0`; every claim below holds for any choice of them. -/
def check_d0_z0 (iD0 iZ0 : Fin 5) (Zd Dxy : ℚ) (trkPar : Fin 5 → ℚ) : Bool :=
  if ! compare Zd (trkPar iZ0) then false
  else if ! compare Dxy (trkPar iD0) then false
  else true

/-- Output record of `ProcessTracks` (class `Track`).  The rapidity computed
from the outer position at line 293 of the source is never stored, so it has
no field here. -/
structure TrackRec where
  UniqueID : Nat
  PID : Int
  Charge : Int
  EtaOuter : ℚ
  PhiOuter : ℚ
  XOuter : ℚ
  YOuter : ℚ
  ZOuter : ℚ
  TOuter : ℚ
  Dxy : ℚ
  SDxy : ℚ
  Xd : ℚ
  Yd : ℚ
  Zd : ℚ
  trkPar : Fin 5 → ℚ
  trkCov : Fin 15 → ℚ
  Eta : ℚ
  Phi : ℚ
  PT : ℚ
  X : ℚ
  Y : ℚ
  Z : ℚ
  T : ℚ
  Particle : Candidate

/-- Entry filled by one iteration of `TreeWriter::ProcessTracks`, given the
originating particle `particle = candidate->GetCandidates()->At(0)`. -/
def trackEntry (K : TMathLib) (candidate particle : Candidate) : TrackRec :=
  let position := candidate.data.Position
  let momentum := candidate.data.Momentum
  let initialPosition := particle.data.Position
  { UniqueID := candidate.data.UniqueID
    PID := candidate.data.PID
    Charge := candidate.data.Charge
    EtaOuter := etaProj K position
    PhiOuter := K.Phi position
    XOuter := position.x
    YOuter := position.y
    ZOuter := position.z
    TOuter := position.t * (1 / 1000) / c_light
    Dxy := candidate.data.Dxy
    SDxy := candidate.data.SDxy
    Xd := candidate.data.Xd
    Yd := candidate.data.Yd
    Zd := candidate.data.Zd
    trkPar := candidate.data.trkPar
    trkCov := candidate.data.trkCov
    Eta := etaProj K momentum
    Phi := K.Phi momentum
    PT := K.Pt momentum
    X := initialPosition.x
    Y := initialPosition.y
    Z := initialPosition.z
    T := initialPosition.t * (1 / 1000) / c_light
    Particle := particle }

/-- Loop of `TreeWriter::ProcessTracks`.  Two abort points are modelled as
`none`: the `assert(check_d0_z0(entry))` at line 323 (evaluated on the
entry fields just copied from the candidate, before the originating
particle is looked up), and the dereference of
`candidate->GetCandidates()->At(0)` at lines 337–338, which is a null
pointer when the track candidate has no children. -/
def ProcessTracks (iD0 iZ0 : Fin 5) (K : TMathLib) :
    List Candidate → Option (List TrackRec)
  | [] => some []
  | candidate :: rest =>
    if check_d0_z0 iD0 iZ0 candidate.data.Zd candidate.data.Dxy
        candidate.data.trkPar then
      match candidate.children.head? with
      | none => none
      | some particle =>
        (ProcessTracks iD0 iZ0 K rest).map (trackEntry K candidate particle :: ·)
    else none

/-- Output record of `ProcessTowers` (class `Tower`). -/
structure TowerRec where
  UniqueID : Nat
  Eta : ℚ
  Phi : ℚ
  ET : ℚ
  E : ℚ
  Eem : ℚ
  Ehad : ℚ
  Edges : Fin 4 → ℚ
  T : ℚ
  NTimeHits : Int
  Particles : List (Option Candidate)

/-- Entry filled by one iteration of `TreeWriter::ProcessTowers`;
`entry->Particles` starts empty, so `FillParticles` receives `[]` as the
previous array content. -/
def towerEntry (K : TMathLib) (candidate : Candidate) : TowerRec :=
  let momentum := candidate.data.Momentum
  let position := candidate.data.Position
  { UniqueID := candidate.data.UniqueID
    Eta := etaProj K momentum
    Phi := K.Phi momentum
    ET := K.Pt momentum
    E := momentum.t
    Eem := candidate.data.Eem
    Ehad := candidate.data.Ehad
    Edges := candidate.data.Edges
    T := position.t * (1 / 1000) / c_light
    NTimeHits := candidate.data.NTimeHits
    Particles := FillParticles candidate [] }

/-- Loop of `TreeWriter::ProcessTowers`: one entry per candidate, in array
order (no sort). -/
def ProcessTowers (K : TMathLib) : List Candidate → List TowerRec
  | [] => []
  | candidate :: rest => towerEntry K candidate :: ProcessTowers K rest

/-- The ordering relation induced by an external boolean comparator on
candidates (`Candidate::Compare`, declared outside this source slice). -/
def cmpRel (cmp : Candidate → Candidate → Bool) (a b : Candidate) : Prop :=
  cmp a b = true

instance (cmp : Candidate → Candidate → Bool) : DecidableRel (cmpRel cmp) :=
  fun a b => inferInstanceAs (Decidable (cmp a b = true))

/-- In-place `array->Sort()`, performed by the photon, electron, muon and
jet projectors before their loops.  `TObjArray::Sort` orders the array by
the external `Candidate::Compare`; it is modelled as a stable sort by the
abstract comparator `cmp`. -/
def sortCands (cmp : Candidate → Candidate → Bool) (l : List Candidate) :
    List Candidate :=
  List.insertionSort (cmpRel cmp) l

/-- Output record of `ProcessPhotons` (class `Photon`). -/
structure PhotonRec where
  Eta : ℚ
  Phi : ℚ
  PT : ℚ
  E : ℚ
  T : ℚ
  IsolationVar : ℚ
  IsolationVarRhoCorr : ℚ
  SumPtCharged : ℚ
  SumPtNeutral : ℚ
  SumPtChargedPU : ℚ
  SumPt : ℚ
  EhadOverEem : ℚ
  Particles : List (Option Candidate)

/-- Entry filled by one iteration of `TreeWriter::ProcessPhotons`. -/
def photonEntry (K : TMathLib) (candidate : Candidate) : PhotonRec :=
  let momentum := candidate.data.Momentum
  let position := candidate.data.Position
  { Eta := etaProj K momentum
    Phi := K.Phi momentum
    PT := K.Pt momentum
    E := momentum.t
    T := position.t * (1 / 1000) / c_light
    IsolationVar := candidate.data.IsolationVar
    IsolationVarRhoCorr := candidate.data.IsolationVarRhoCorr
    SumPtCharged := candidate.data.SumPtCharged
    SumPtNeutral := candidate.data.SumPtNeutral
    SumPtChargedPU := candidate.data.SumPtChargedPU
    SumPt := candidate.data.SumPt
    EhadOverEem :=
      if candidate.data.Eem > 0 then candidate.data.Ehad / candidate.data.Eem
      else 9999 / 10
    Particles := FillParticles candidate [] }

/-- Loop body of `TreeWriter::ProcessPhotons`, over the already sorted
array. -/
def photonLoop (K : TMathLib) : List Candidate → List PhotonRec
  | [] => []
  | candidate :: rest => photonEntry K candidate :: photonLoop K rest

/-- `TreeWriter::ProcessPhotons`: sorts the input array in place
(`array->Sort()`), then emits one entry per candidate of the sorted array.
The first component is the mutated array, the second the emitted records. -/
def ProcessPhotons (K : TMathLib) (cmp : Candidate → Candidate → Bool)
    (array : List Candidate) : List Candidate × List PhotonRec :=
  let sorted := sortCands cmp array
  (sorted, photonLoop K sorted)

/-- Output record of `ProcessElectrons` (class `Electron`); the projector
assigns no energy field. -/
structure ElectronRec where
  Eta : ℚ
  Phi : ℚ
  PT : ℚ
  T : ℚ
  IsolationVar : ℚ
  IsolationVarRhoCorr : ℚ
  SumPtCharged : ℚ
  SumPtNeutral : ℚ
  SumPtChargedPU : ℚ
  SumPt : ℚ
  Charge : Int
  EhadOverEem : ℚ
  Particle : Option Candidate

/-- Entry filled by one iteration of `TreeWriter::ProcessElectrons`;
`entry->Particle = candidate->GetCandidates()->At(0)` stores the first
child pointer without dereferencing it, hence `head?`. -/
def electronEntry (K : TMathLib) (candidate : Candidate) : ElectronRec :=
  let momentum := candidate.data.Momentum
  let position := candidate.data.Position
  { Eta := etaProj K momentum
    Phi := K.Phi momentum
    PT := K.Pt momentum
    T := position.t * (1 / 1000) / c_light
    IsolationVar := candidate.data.IsolationVar
    IsolationVarRhoCorr := candidate.data.IsolationVarRhoCorr
    SumPtCharged := candidate.data.SumPtCharged
    SumPtNeutral := candidate.data.SumPtNeutral
    SumPtChargedPU := candidate.data.SumPtChargedPU
    SumPt := candidate.data.SumPt
    Charge := candidate.data.Charge
    EhadOverEem := 0
    Particle := candidate.children.head? }

/-- Loop body of `TreeWriter::ProcessElectrons`, over the already sorted
array. -/
def electronLoop (K : TMathLib) : List Candidate → List ElectronRec
  | [] => []
  | candidate :: rest => electronEntry K candidate :: electronLoop K rest

/-- `TreeWriter::ProcessElectrons`: in-place sort, then one entry per
candidate of the sorted array. -/
def ProcessElectrons (K : TMathLib) (cmp : Candidate → Candidate → Bool)
    (array : List Candidate) : List Candidate × List ElectronRec :=
  let sorted := sortCands cmp array
  (sorted, electronLoop K sorted)

/-- Output record of `ProcessMuons` (class `Muon`). -/
structure MuonRec where
  UniqueID : Nat
  Eta : ℚ
  Phi : ℚ
  PT : ℚ
  T : ℚ
  IsolationVar : ℚ
  IsolationVarRhoCorr : ℚ
  SumPtCharged : ℚ
  SumPtNeutral : ℚ
  SumPtChargedPU : ℚ
  SumPt : ℚ
  Charge : Int
  Particle : Option Candidate

/-- Entry filled by one iteration of `TreeWriter::ProcessMuons`. -/
def muonEntry (K : TMathLib) (candidate : Candidate) : MuonRec :=
  let momentum := candidate.data.Momentum
  let position := candidate.data.Position
  { UniqueID := candidate.data.UniqueID
    Eta := etaProj K momentum
    Phi := K.Phi momentum
    PT := K.Pt momentum
    T := position.t * (1 / 1000) / c_light
    IsolationVar := candidate.data.IsolationVar
    IsolationVarRhoCorr := candidate.data.IsolationVarRhoCorr
    SumPtCharged := candidate.data.SumPtCharged
    SumPtNeutral := candidate.data.SumPtNeutral
    SumPtChargedPU := candidate.data.SumPtChargedPU
    SumPt := candidate.data.SumPt
    Charge := candidate.data.Charge
    Particle := candidate.children.head? }

/-- Loop body of `TreeWriter::ProcessMuons`, over the already sorted
array. -/
def muonLoop (K : TMathLib) : List Candidate → List MuonRec
  | [] => []
  | candidate :: rest => muonEntry K candidate :: muonLoop K rest

/-- `TreeWriter::ProcessMuons`: in-place sort, then one entry per candidate
of the sorted array. -/
def ProcessMuons (K : TMathLib) (cmp : Candidate → Candidate → Bool)
    (array : List Candidate) : List Candidate × List MuonRec :=
  let sorted := sortCands cmp array
  (sorted, muonLoop K sorted)

/-- Accumulation `ecalEnergy += constituent->Eem` over the jet constituent
loop, starting from `ecalEnergy = 0.0`. -/
def sumEem (l : List Candidate) : ℚ :=
  l.foldl (fun acc constituent => acc + constituent.data.Eem) 0

/-- Accumulation `hcalEnergy += constituent->Ehad` over the jet constituent
loop, starting from `hcalEnergy = 0.0`. -/
def sumEhad (l : List Candidate) : ℚ :=
  l.foldl (fun acc constituent => acc + constituent.data.Ehad) 0

/-- Field-wise projection of one input `SecondaryVertex` to an output
`TSecondaryVertex` (the `CP(...)` block plus the nested track-list copy). -/
def svOut (vx : SecondaryVertexIn) : TSecondaryVertexOut :=
  { x := vx.X
    y := vx.Y
    z := vx.Z
    Lxy := vx.Lxy
    Lsig := vx.Lsig
    decayLengthVariance := vx.decayLengthVariance
    nTracks := vx.nTracks
    eFrac := vx.eFrac
    mass := vx.mass
    config := vx.config
    tracks := vx.tracks_along_jet.map copySVTrack }

/-- Output record of `ProcessJets` (class `Jet`).  The eight scalars that
`copy(candidate->hlTrk, *entry)` writes directly onto the jet entry are
grouped in the sub-record `HLTrk`. -/
structure JetRec where
  Eta : ℚ
  Phi : ℚ
  PT : ℚ
  T : ℚ
  Mass : ℚ
  Area : Vec4
  DeltaEta : ℚ
  DeltaPhi : ℚ
  Flavor : Int
  FlavorAlgo : Int
  FlavorPhys : Int
  BTag : Int
  BTagAlgo : Int
  BTagPhys : Int
  PrimaryVertexTracks : List SVTrack
  SecondaryVertices : List TSecondaryVertexOut
  HLSecondaryVertexTracks : List SVTrack
  HLSecondaryVertex : SVTrack
  MLSecondaryVertex : SVTrack
  HLTrk : SVTrack
  TruthVertices : List Vec3
  TauTag : Int
  Charge : Int
  Constituents : List Candidate
  EhadOverEem : ℚ
  Subjets : List Candidate
  Tracks : List Candidate
  NCharged : Int
  NNeutrals : Int
  Beta : ℚ
  BetaStar : ℚ
  MeanSqDeltaR : ℚ
  PTD : ℚ
  NSubJetsTrimmed : Int
  NSubJetsPruned : Int
  NSubJetsSoftDropped : Int
  FracPt : Fin 5 → ℚ
  Tau : Fin 5 → ℚ
  TrimmedP4 : Fin 5 → Vec4
  PrunedP4 : Fin 5 → Vec4
  SoftDroppedP4 : Fin 5 → Vec4
  Particles : List (Option Candidate)

/-- Entry filled by one iteration of `TreeWriter::ProcessJets`.  The
constituent loop appends every direct child to `Constituents` while
accumulating `ecalEnergy` / `hcalEnergy`; the subjet and tagging-track
loops copy the corresponding edge arrays unchanged. -/
def jetEntry (K : TMathLib) (candidate : Candidate) : JetRec :=
  let momentum := candidate.data.Momentum
  let position := candidate.data.Position
  let ecalEnergy := sumEem candidate.children
  let hcalEnergy := sumEhad candidate.children
  { Eta := etaProj K momentum
    Phi := K.Phi momentum
    PT := K.Pt momentum
    T := position.t * (1 / 1000) / c_light
    Mass := K.M momentum
    Area := candidate.data.Area
    DeltaEta := candidate.data.DeltaEta
    DeltaPhi := candidate.data.DeltaPhi
    Flavor := candidate.data.Flavor
    FlavorAlgo := candidate.data.FlavorAlgo
    FlavorPhys := candidate.data.FlavorPhys
    BTag := candidate.data.BTag
    BTagAlgo := candidate.data.BTagAlgo
    BTagPhys := candidate.data.BTagPhys
    PrimaryVertexTracks := candidate.data.primaryVertexTracks.map copySVTrack
    SecondaryVertices := candidate.data.secondaryVertices.map svOut
    HLSecondaryVertexTracks := candidate.data.hlSecVxTracks.map copySVTrack
    HLSecondaryVertex := copySVTrack candidate.data.hlSvx
    MLSecondaryVertex := copySVTrack candidate.data.mlSvx
    HLTrk := copySVTrack candidate.data.hlTrk
    TruthVertices := candidate.data.truthVertices
    TauTag := candidate.data.TauTag
    Charge := candidate.data.Charge
    Constituents := candidate.children
    EhadOverEem :=
      if ecalEnergy > 0 then hcalEnergy / ecalEnergy else 9999 / 10
    Subjets := candidate.subjets
    Tracks := candidate.tracks
    NCharged := candidate.data.NCharged
    NNeutrals := candidate.data.NNeutrals
    Beta := candidate.data.Beta
    BetaStar := candidate.data.BetaStar
    MeanSqDeltaR := candidate.data.MeanSqDeltaR
    PTD := candidate.data.PTD
    NSubJetsTrimmed := candidate.data.NSubJetsTrimmed
    NSubJetsPruned := candidate.data.NSubJetsPruned
    NSubJetsSoftDropped := candidate.data.NSubJetsSoftDropped
    FracPt := candidate.data.FracPt
    Tau := candidate.data.Tau
    TrimmedP4 := candidate.data.TrimmedP4
    PrunedP4 := candidate.data.PrunedP4
    SoftDroppedP4 := candidate.data.SoftDroppedP4
    Particles := FillParticles candidate [] }

/-- Loop body of `TreeWriter::ProcessJets`, over the already sorted
array. -/
def jetLoop (K : TMathLib) : List Candidate → List JetRec
  | [] => []
  | candidate :: rest => jetEntry K candidate :: jetLoop K rest

/-- `TreeWriter::ProcessJets`: in-place sort, then one entry per candidate
of the sorted array. -/
def ProcessJets (K : TMathLib) (cmp : Candidate → Candidate → Bool)
    (array : List Candidate) : List Candidate × List JetRec :=
  let sorted := sortCands cmp array
  (sorted, jetLoop K sorted)

/-- Output record of `ProcessMissingET` (class `MissingET`). -/
structure MissingETRec where
  Eta : ℚ
  Phi : ℚ
  MET : ℚ

/-- `TreeWriter::ProcessMissingET`: `array->At(0)` is null-checked, so an
empty array emits nothing; otherwise exactly one entry is produced from the
first array element, with the angle fields computed from the negated
momentum. -/
def ProcessMissingET (K : TMathLib) (array : List Candidate) :
    List MissingETRec :=
  match array.head? with
  | none => []
  | some candidate =>
    let momentum := candidate.data.Momentum
    [{ Eta := K.Eta (Vec4.neg momentum)
       Phi := K.Phi (Vec4.neg momentum)
       MET := K.Pt momentum }]

/-- Output record of `ProcessScalarHT` (class `ScalarHT`). -/
structure ScalarHTRec where
  HT : ℚ

/-- `TreeWriter::ProcessScalarHT`: null-checked first entry only. -/
def ProcessScalarHT (array : List Candidate) : List ScalarHTRec :=
  match array.head? with
  | none => []
  | some candidate => [{ HT := candidate.data.Momentum.t }]

/-- Output record of `ProcessRho` (class `Rho`). -/
structure RhoRec where
  Rho : ℚ
  Edges0 : ℚ
  Edges1 : ℚ

/-- Entry filled by one iteration of `TreeWriter::ProcessRho`. -/
def rhoEntry (candidate : Candidate) : RhoRec :=
  { Rho := candidate.data.Momentum.t
    Edges0 := candidate.data.Edges 0
    Edges1 := candidate.data.Edges 1 }

/-- Loop of `TreeWriter::ProcessRho`: one entry per candidate, in array
order (no sort). -/
def ProcessRho : List Candidate → List RhoRec
  | [] => []
  | candidate :: rest => rhoEntry candidate :: ProcessRho rest

/-- Output record of `ProcessWeight` (class `Weight`). -/
structure WeightRec where
  Weight : ℚ

/-- `TreeWriter::ProcessWeight`: null-checked first entry only. -/
def ProcessWeight (array : List Candidate) : List WeightRec :=
  match array.head? with
  | none => []
  | some candidate => [{ Weight := candidate.data.Momentum.t }]

/-- Output record of `ProcessHectorHit` (class `HectorHit`).  Note that the
time field is copied raw (`entry->T = position.T()`), without the
`*1.0E-3/c_light` conversion the other projectors apply. -/
structure HectorHitRec where
  E : ℚ
  Tx : ℚ
  Ty : ℚ
  T : ℚ
  X : ℚ
  Y : ℚ
  S : ℚ
  Particle : Option Candidate

/-- Entry filled by one iteration of `TreeWriter::ProcessHectorHit`. -/
def hectorHitEntry (candidate : Candidate) : HectorHitRec :=
  let position := candidate.data.Position
  let momentum := candidate.data.Momentum
  { E := momentum.t
    Tx := momentum.x
    Ty := momentum.y
    T := position.t
    X := position.x
    Y := position.y
    S := position.z
    Particle := candidate.children.head? }

/-- Loop of `TreeWriter::ProcessHectorHit`: one entry per candidate, in
array order (no sort). -/
def ProcessHectorHit : List Candidate → List HectorHitRec
  | [] => []
  | candidate :: rest => hectorHitEntry candidate :: ProcessHectorHit rest

/-- Tag for the thirteen projector methods registered in `fClassMap`. -/
inductive ProjKind where
  | particles
  | vertices
  | tracks
  | towers
  | photons
  | electrons
  | muons
  | jets
  | missingET
  | scalarHT
  | rho
  | weight
  | hectorHit
deriving DecidableEq

/-- Identity of a `TClass` as returned by `gROOT->GetClass`: one of the
thirteen output classes known to this module, or any other class. -/
inductive TClassId where
  | genParticle
  | vertexC
  | trackC
  | towerC
  | photonC
  | electronC
  | muonC
  | jetC
  | missingETC
  | scalarHTC
  | rhoC
  | weightC
  | hectorHitC
  | other (name : String)
deriving DecidableEq

/-- Lines 72-84 of the source: the `fClassMap[...] = &TreeWriter::...`
registrations, as a lookup from class identity to projector; classes not
registered there (`other`) have no projector. -/
def fClassMap : TClassId → Option ProjKind
  | .genParticle => some .particles
  | .vertexC => some .vertices
  | .trackC => some .tracks
  | .towerC => some .towers
  | .photonC => some .photons
  | .electronC => some .electrons
  | .muonC => some .muons
  | .jetC => some .jets
  | .missingETC => some .missingET
  | .scalarHTC => some .scalarHT
  | .rhoC => some .rho
  | .weightC => some .weight
  | .hectorHitC => some .hectorHit
  | .other _ => none

/-- One registered branch: projector method, input-array name and branch
name (the value stored into `fBranchMap`). -/
structure RegEntry where
  method : ProjKind
  inputArray : String
  branchName : String
deriving DecidableEq

/-- Decoding of the flat `Branch` configuration list into `size/3` triples
(`param[i*3]` = input array name, `param[i*3+1]` = branch name,
`param[i*3+2]` = class name); a trailing fragment of fewer than three
strings is dropped by the integer division `size/3`. -/
def toTriples : List String → List (String × String × String)
  | inArr :: name :: clName :: rest => (inArr, name, clName) :: toTriples rest
  | _ => []

/-- One iteration of the `TreeWriter::Init` loop for one configuration
triple: the `gROOT->GetClass` lookup (abstracted as `resolve`, an external
collaborator) followed by the `fClassMap` lookup; either failure prints an
error and `continue`s, registering nothing for this triple. -/
def resolveTriple (resolve : String → Option TClassId) :
    String × String × String → Option RegEntry
  | (inArr, name, clName) =>
    match resolve clName with
    | none => none
    | some branchClass =>
      match fClassMap branchClass with
      | none => none
      | some method => some ⟨method, inArr, name⟩

/-- `TreeWriter::Init`: builds the branch registry from the flat `Branch`
configuration list, keeping exactly the resolvable triples in order. -/
def InitRegistry (resolve : String → Option TClassId) (params : List String) :
    List RegEntry :=
  (toTriples params).filterMap (resolveTriple resolve)

/-- One output record of any of the thirteen classes. -/
inductive OutRec where
  | particle (r : GenParticleRec)
  | vertex (r : VertexRec)
  | track (r : TrackRec)
  | tower (r : TowerRec)
  | photon (r : PhotonRec)
  | electron (r : ElectronRec)
  | muon (r : MuonRec)
  | jet (r : JetRec)
  | missingET (r : MissingETRec)
  | scalarHT (r : ScalarHTRec)
  | rho (r : RhoRec)
  | weight (r : WeightRec)
  | hectorHit (r : HectorHitRec)

/-- Which projector methods call `array->Sort()` on their input array. -/
def sortsInput : ProjKind → Bool
  | .photons => true
  | .electrons => true
  | .muons => true
  | .jets => true
  | _ => false

/-- Invocation `(this->*method)(branch, array)` of one registered projector
on its bound input array.  The result is the array content after the call
(mutated in place by the sorting projectors, unchanged otherwise) and the
records appended to the branch, or `none` when `ProcessTracks` aborts. -/
def runMethod (iD0 iZ0 : Fin 5) (K : TMathLib)
    (cmp : Candidate → Candidate → Bool) (method : ProjKind)
    (array : List Candidate) : List Candidate × Option (List OutRec) :=
  match method with
  | .particles => (array, some ((ProcessParticles K array).map OutRec.particle))
  | .vertices => (array, some ((ProcessVertices array).map OutRec.vertex))
  | .tracks =>
    (array, (ProcessTracks iD0 iZ0 K array).map (List.map OutRec.track))
  | .towers => (array, some ((ProcessTowers K array).map OutRec.tower))
  | .photons =>
    let r := ProcessPhotons K cmp array
    (r.1, some (r.2.map OutRec.photon))
  | .electrons =>
    let r := ProcessElectrons K cmp array
    (r.1, some (r.2.map OutRec.electron))
  | .muons =>
    let r := ProcessMuons K cmp array
    (r.1, some (r.2.map OutRec.muon))
  | .jets =>
    let r := ProcessJets K cmp array
    (r.1, some (r.2.map OutRec.jet))
  | .missingET =>
    (array, some ((ProcessMissingET K array).map OutRec.missingET))
  | .scalarHT => (array, some ((ProcessScalarHT array).map OutRec.scalarHT))
  | .rho => (array, some ((ProcessRho array).map OutRec.rho))
  | .weight => (array, some ((ProcessWeight array).map OutRec.weight))
  | .hectorHit =>
    (array, some ((ProcessHectorHit array).map OutRec.hectorHit))

/-- Write-back of the (possibly mutated) array content under its name in
the event state. -/
def updState (st : String → List Candidate) (id : String)
    (a : List Candidate) : String → List Candidate :=
  fun n => if n = id then a else st n

/-- `TreeWriter::Process`: run every registered (projector, input array)
pair in registry order.  The event state maps each input-array name to its
current content; a sorting projector writes the sorted array back (the
in-place `array->Sort()`), and a `ProcessTracks` abort aborts the whole
pass.  Returns the final state and, per registry entry in order, the list
of records that entry emitted. -/
def ProcessEvent (iD0 iZ0 : Fin 5) (K : TMathLib)
    (cmp : Candidate → Candidate → Bool) :
    List RegEntry → (String → List Candidate) →
    Option ((String → List Candidate) × List (List OutRec))
  | [], st => some (st, [])
  | e :: rest, st =>
    let r := runMethod iD0 iZ0 K cmp e.method (st e.inputArray)
    match r.2 with
    | none => none
    | some out =>
      match ProcessEvent iD0 iZ0 K cmp rest (updState st e.inputArray r.1) with
      | none => none
      | some (stF, outs) => some (stF, out :: outs)

/-! Concrete fixtures used by witnesses and counterexamples. -/

/-- All-zero secondary-vertex track. -/
def sv0 : SVTrack := ⟨0, 0, 0, 0, 0, 0, 0, 0⟩

/-- All-zero candidate payload. -/
def cd0 : CandData :=
  { UniqueID := 0
    Momentum := ⟨0, 0, 0, 0⟩
    Position := ⟨0, 0, 0, 0⟩
    PID := 0
    Status := 0
    IsPU := 0
    M1 := 0
    M2 := 0
    D1 := 0
    D2 := 0
    Charge := 0
    Mass := 0
    Eem := 0
    Ehad := 0
    Edges := fun _ => 0
    NTimeHits := 0
    IsolationVar := 0
    IsolationVarRhoCorr := 0
    SumPtCharged := 0
    SumPtNeutral := 0
    SumPtChargedPU := 0
    SumPt := 0
    Dxy := 0
    SDxy := 0
    Xd := 0
    Yd := 0
    Zd := 0
    trkPar := fun _ => 0
    trkCov := fun _ => 0
    Area := ⟨0, 0, 0, 0⟩
    DeltaEta := 0
    DeltaPhi := 0
    Flavor := 0
    FlavorAlgo := 0
    FlavorPhys := 0
    BTag := 0
    BTagAlgo := 0
    BTagPhys := 0
    TauTag := 0
    NCharged := 0
    NNeutrals := 0
    Beta := 0
    BetaStar := 0
    MeanSqDeltaR := 0
    PTD := 0
    NSubJetsTrimmed := 0
    NSubJetsPruned := 0
    NSubJetsSoftDropped := 0
    FracPt := fun _ => 0
    Tau := fun _ => 0
    TrimmedP4 := fun _ => ⟨0, 0, 0, 0⟩
    PrunedP4 := fun _ => ⟨0, 0, 0, 0⟩
    SoftDroppedP4 := fun _ => ⟨0, 0, 0, 0⟩
    primaryVertexTracks := []
    secondaryVertices := []
    hlSecVxTracks := []
    hlSvx := sv0
    mlSvx := sv0
    hlTrk := sv0
    truthVertices := [] }

/-- Childless test candidate with a given unique identifier. -/
def leafCand (id : Nat) : Candidate := .mk { cd0 with UniqueID := id } [] [] []

/-- Test candidate with a given unique identifier and children. -/
def nodeCand (id : Nat) (ch : List Candidate) : Candidate :=
  .mk { cd0 with UniqueID := id } ch [] []

/-- Kinematics stub (all functions constantly zero), used to instantiate
theorems quantified over the external library at concrete inputs. -/
def K0 : TMathLib :=
  ⟨fun _ => 0, fun _ => 0, fun _ => 0, fun _ => 0, fun _ => 0, fun _ => 0⟩

/-- Kinematics stub whose transverse-momentum function is constantly 5. -/
def K5 : TMathLib :=
  ⟨fun _ => 5, fun _ => 0, fun _ => 0, fun _ => 0, fun _ => 0, fun _ => 0⟩

/-- Boolean form of the claim's "two-level children-of-children (tower)
shape" for one direct child: the child has children and its first child
also has children, so the tower branch of `FillParticles` runs for it. -/
def isTowerShape (child : Candidate) : Bool :=
  match child.children with
  | [] => false
  | first :: _ => ! first.children.isEmpty

/-! Shared helper lemmas. -/

theorem fillLoop_eq (l : List Candidate) :
    ∀ out, fillLoop l out = out ++ l.flatMap flattenChild := by
  induction l with
  | nil => intro out; simp [fillLoop]
  | cons child rest ih =>
    intro out
    simp [fillLoop, ih, List.flatMap_cons, List.append_assoc]

theorem FillParticles_eq_flatMap (c : Candidate)
    (prev : List (Option Candidate)) :
    FillParticles c prev = c.children.flatMap flattenChild := by
  simpa [FillParticles] using fillLoop_eq c.children []

theorem flattenChild_tower (child : Candidate)
    (h : isTowerShape child = true) :
    flattenChild child = child.children.map fun gc => gc.children.head? := by
  unfold isTowerShape at h
  unfold flattenChild
  cases hc : child.children with
  | nil => rw [hc] at h; simp at h
  | cons first rest =>
    rw [hc] at h
    simp only [Bool.not_eq_true'] at h
    simp [h, hc]

/-! Claim C1. -/

/-- Concrete candidate whose two children both have the tower shape:
child 1 has grandchildren 3, 4 (with first children 6, 7), child 2 has
grandchild 5 (with first child 8). -/
def c1tower : Candidate :=
  nodeCand 0
    [nodeCand 1 [nodeCand 3 [leafCand 6], nodeCand 4 [leafCand 7]],
     nodeCand 2 [nodeCand 5 [leafCand 8]]]

/-- C1: `FillParticles` first clears the output list (its result is
independent of the previous array content), then iterates the candidate's
direct children in order: a childless child is appended itself; otherwise
its first child is appended if that node is childless; otherwise each of
the child's children contributes its own first child.  Encounter order is
preserved and duplicates are kept; for a candidate whose every child has
the tower shape the flattened length equals the sum of grandchildren
counts; an empty children sequence yields an empty output. -/
theorem claim_C1 :
    (∀ (c : Candidate) (prev : List (Option Candidate)),
      FillParticles c prev = FillParticles c []
      ∧ FillParticles c prev = c.children.flatMap flattenChild
      ∧ (c.children = [] → FillParticles c prev = [])
      ∧ ((∀ child ∈ c.children, isTowerShape child = true) →
          (FillParticles c prev).length =
            (c.children.map fun child => child.children.length).sum))
    ∧ (∀ (child first : Candidate) (rest : List Candidate),
      (child.children = [] → flattenChild child = [some child])
      ∧ (child.children = first :: rest → first.children = [] →
          flattenChild child = [some first])
      ∧ (child.children = first :: rest → first.children ≠ [] →
          flattenChild child = child.children.map fun gc => gc.children.head?))
    ∧ (∀ (d : CandData) (s t : List Candidate) (leaf : Candidate)
        (prev : List (Option Candidate)), leaf.children = [] →
      FillParticles (.mk d [leaf, leaf] s t) prev =
        [some leaf, some leaf]) := by
  refine ⟨fun c prev => ⟨rfl, FillParticles_eq_flatMap c prev, ?_, ?_⟩,
    fun child first rest => ⟨?_, ?_, ?_⟩, ?_⟩
  · intro hc
    rw [FillParticles_eq_flatMap, hc]
    rfl
  · intro htower
    rw [FillParticles_eq_flatMap, List.length_flatMap]
    congr 1
    refine List.map_congr_left fun child hmem => ?_
    simp only [Function.comp_apply]
    rw [flattenChild_tower child (htower child hmem), List.length_map]
  · intro hc
    unfold flattenChild
    rw [hc]
  · intro hc hfirst
    unfold flattenChild
    rw [hc]
    simp [hfirst]
  · intro hc hfirst
    unfold flattenChild
    rw [hc]
    simp [List.isEmpty_iff, hfirst, hc]
  · intro d s t leaf prev hleaf
    rw [FillParticles_eq_flatMap]
    simp [flattenChild, hleaf]

/-- Witness for C1: on `c1tower` the tower-shape hypothesis holds and the
flattened list length is the sum of grandchildren counts. -/
theorem claim_C1_witness :
    (∀ child ∈ c1tower.children, isTowerShape child = true)
    ∧ (FillParticles c1tower []).length =
        (c1tower.children.map fun child => child.children.length).sum :=
  ⟨by decide, (claim_C1.1 c1tower []).2.2.2 (by decide)⟩

/-! Claim C2. -/

/-- Far-detector hit candidate whose position has time component 1000. -/
def hcand : Candidate := .mk { cd0 with Position := ⟨0, 0, 0, 1000⟩ } [] [] []

/-- Particle candidate at position (1, 2, 3, 1000), the spec's track
example. -/
def p1234 : Candidate := .mk { cd0 with Position := ⟨1, 2, 3, 1000⟩ } [] [] []

/-- Counterexample to C2: `ProcessHectorHit` copies the position time raw
(`entry->T = position.T()`), so for a hit candidate with internal time 1000
the emitted `T` is 1000, not `1000 * 1.0e-3 / c`. -/
theorem claim_C2_counterexample :
    ProcessHectorHit [hcand] = [hectorHitEntry hcand]
    ∧ (hectorHitEntry hcand).T = 1000
    ∧ ¬ (hectorHitEntry hcand).T =
        hcand.data.Position.t * (1 / 1000) / c_light := by
  refine ⟨rfl, rfl, ?_⟩
  show ¬ (1000 : ℚ) = 1000 * (1 / 1000) / c_light
  rw [c_light]
  norm_num

/-- C2 (amended): every projector that exposes a position's time component
applies `time_in * 1.0e-3 / c_light` with `c_light = 2.99792458e8` —
particle, vertex, track inner and outer times, tower, photon, electron,
muon and jet — except the far-detector hit record, which copies the
internal time unconverted.  The track record built from an originating
particle at position (1, 2, 3, 1000) has `X=1, Y=2, Z=3` and
`T = 1000 * 1.0e-3 / c`. -/
theorem claim_C2 (K : TMathLib) (candidate particle : Candidate) :
    (particleEntry K candidate).T =
      candidate.data.Position.t * (1 / 1000) / c_light
    ∧ (vertexEntry candidate).T =
        candidate.data.Position.t * (1 / 1000) / c_light
    ∧ (trackEntry K candidate particle).TOuter =
        candidate.data.Position.t * (1 / 1000) / c_light
    ∧ (trackEntry K candidate particle).T =
        particle.data.Position.t * (1 / 1000) / c_light
    ∧ (towerEntry K candidate).T =
        candidate.data.Position.t * (1 / 1000) / c_light
    ∧ (photonEntry K candidate).T =
        candidate.data.Position.t * (1 / 1000) / c_light
    ∧ (electronEntry K candidate).T =
        candidate.data.Position.t * (1 / 1000) / c_light
    ∧ (muonEntry K candidate).T =
        candidate.data.Position.t * (1 / 1000) / c_light
    ∧ (jetEntry K candidate).T =
        candidate.data.Position.t * (1 / 1000) / c_light
    ∧ (hectorHitEntry candidate).T = candidate.data.Position.t
    ∧ (trackEntry K candidate p1234).X = 1
    ∧ (trackEntry K candidate p1234).Y = 2
    ∧ (trackEntry K candidate p1234).Z = 3
    ∧ (trackEntry K candidate p1234).T = 1000 * (1 / 1000) / c_light :=
  ⟨rfl, rfl, rfl, rfl, rfl, rfl, rfl, rfl, rfl, rfl, rfl, rfl, rfl, rfl⟩

/-! Claim C3. -/

/-- C3: when the absolute cosine of the polar angle equals 1.0 under the
exact equality test, the projected pseudorapidity and rapidity are the
sentinel `signPz * 999.9` with `signPz = +1` for a non-negative
longitudinal component and `-1` otherwise; for every other four-vector they
are the library's closed-form pseudorapidity and rapidity.  Stated for the
projection idiom shared by all projectors and, representatively, for the
particle record fields. -/
theorem claim_C3 (K : TMathLib) (v : Vec4) (c : Candidate) :
    (|K.CosTheta v| = 1 →
      (v.z ≥ 0 → etaProj K v = 9999 / 10 ∧ rapidityProj K v = 9999 / 10)
      ∧ (¬ v.z ≥ 0 →
          etaProj K v = -(9999 / 10) ∧ rapidityProj K v = -(9999 / 10)))
    ∧ (¬ |K.CosTheta v| = 1 →
        etaProj K v = K.Eta v ∧ rapidityProj K v = K.Rapidity v)
    ∧ (particleEntry K c).Eta = etaProj K c.data.Momentum
    ∧ (particleEntry K c).Rapidity = rapidityProj K c.data.Momentum := by
  refine ⟨fun h1 => ⟨fun hz => ?_, fun hz => ?_⟩, fun h1 => ?_, rfl, rfl⟩
  · simp [etaProj, rapidityProj, signPz, h1, hz]
  · simp [etaProj, rapidityProj, signPz, h1, hz]
  · simp [etaProj, rapidityProj, h1]

/-! Claim C4. -/

/-- Default candidate (used only as the `headD` fallback in the statement
of the track-projector characterization; never reached when the projector
succeeds). -/
def cdefault : Candidate := .mk cd0 [] [] []

theorem headD_of_head? {α : Type} (l : List α) (a d : α)
    (h : l.head? = some a) : l.headD d = a := by
  cases l <;> simp_all

theorem ProcessParticles_eq_map (K : TMathLib) (l : List Candidate) :
    ProcessParticles K l = l.map (particleEntry K) := by
  induction l with
  | nil => rfl
  | cons c r ih => simp [ProcessParticles, ih]

theorem ProcessVertices_eq_map (l : List Candidate) :
    ProcessVertices l = l.map vertexEntry := by
  induction l with
  | nil => rfl
  | cons c r ih => simp [ProcessVertices, ih]

theorem ProcessTowers_eq_map (K : TMathLib) (l : List Candidate) :
    ProcessTowers K l = l.map (towerEntry K) := by
  induction l with
  | nil => rfl
  | cons c r ih => simp [ProcessTowers, ih]

theorem ProcessRho_eq_map (l : List Candidate) :
    ProcessRho l = l.map rhoEntry := by
  induction l with
  | nil => rfl
  | cons c r ih => simp [ProcessRho, ih]

theorem ProcessHectorHit_eq_map (l : List Candidate) :
    ProcessHectorHit l = l.map hectorHitEntry := by
  induction l with
  | nil => rfl
  | cons c r ih => simp [ProcessHectorHit, ih]

theorem photonLoop_eq_map (K : TMathLib) (l : List Candidate) :
    photonLoop K l = l.map (photonEntry K) := by
  induction l with
  | nil => rfl
  | cons c r ih => simp [photonLoop, ih]

theorem electronLoop_eq_map (K : TMathLib) (l : List Candidate) :
    electronLoop K l = l.map (electronEntry K) := by
  induction l with
  | nil => rfl
  | cons c r ih => simp [electronLoop, ih]

theorem muonLoop_eq_map (K : TMathLib) (l : List Candidate) :
    muonLoop K l = l.map (muonEntry K) := by
  induction l with
  | nil => rfl
  | cons c r ih => simp [muonLoop, ih]

theorem jetLoop_eq_map (K : TMathLib) (l : List Candidate) :
    jetLoop K l = l.map (jetEntry K) := by
  induction l with
  | nil => rfl
  | cons c r ih => simp [jetLoop, ih]

theorem ProcessTracks_eq_map (iD0 iZ0 : Fin 5) (K : TMathLib) :
    ∀ (l : List Candidate) (out : List TrackRec),
      ProcessTracks iD0 iZ0 K l = some out →
      out = l.map fun c => trackEntry K c (c.children.headD cdefault) := by
  intro l
  induction l with
  | nil =>
    intro out h
    simp only [ProcessTracks, Option.some.injEq] at h
    simp [← h]
  | cons c r ih =>
    intro out h
    simp only [ProcessTracks] at h
    split at h
    · cases hh : c.children.head? with
      | none => rw [hh] at h; cases h
      | some particle =>
        rw [hh] at h
        cases ho : ProcessTracks iD0 iZ0 K r with
        | none => rw [ho] at h; cases h
        | some o =>
          rw [ho] at h
          have h2 : trackEntry K c particle :: o = out := by simpa using h
          rw [← h2, List.map_cons, headD_of_head? _ _ _ hh, ih o ho]
    · cases h

/-- C4: each per-candidate projector emits exactly one record per input
candidate, in the order of its array at projection time.  The photon,
electron, muon and jet projectors first sort their array (whose length the
sort preserves); the particle, vertex, track, tower, pileup-density and
far-detector-hit projectors process the array in input order with no
re-sort. -/
theorem claim_C4 (iD0 iZ0 : Fin 5) (K : TMathLib)
    (cmp : Candidate → Candidate → Bool) (l : List Candidate) :
    ProcessParticles K l = l.map (particleEntry K)
    ∧ ProcessVertices l = l.map vertexEntry
    ∧ ProcessTowers K l = l.map (towerEntry K)
    ∧ ProcessRho l = l.map rhoEntry
    ∧ ProcessHectorHit l = l.map hectorHitEntry
    ∧ ProcessPhotons K cmp l =
        (sortCands cmp l, (sortCands cmp l).map (photonEntry K))
    ∧ ProcessElectrons K cmp l =
        (sortCands cmp l, (sortCands cmp l).map (electronEntry K))
    ∧ ProcessMuons K cmp l =
        (sortCands cmp l, (sortCands cmp l).map (muonEntry K))
    ∧ ProcessJets K cmp l =
        (sortCands cmp l, (sortCands cmp l).map (jetEntry K))
    ∧ (sortCands cmp l).length = l.length
    ∧ (∀ out, ProcessTracks iD0 iZ0 K l = some out →
        out = (l.map fun c => trackEntry K c (c.children.headD cdefault))
        ∧ out.length = l.length) := by
  refine ⟨ProcessParticles_eq_map K l, ProcessVertices_eq_map l,
    ProcessTowers_eq_map K l, ProcessRho_eq_map l, ProcessHectorHit_eq_map l,
    ?_, ?_, ?_, ?_, List.length_insertionSort _ l, fun out h => ?_⟩
  · rw [ProcessPhotons, photonLoop_eq_map]
  · rw [ProcessElectrons, electronLoop_eq_map]
  · rw [ProcessMuons, muonLoop_eq_map]
  · rw [ProcessJets, jetLoop_eq_map]
  · have hmap := ProcessTracks_eq_map iD0 iZ0 K l out h
    exact ⟨hmap, by rw [hmap, List.length_map]⟩

/-- Track candidate with one child (its originating particle) passing the
impact-parameter consistency check with all-zero parameters. -/
def trkCand : Candidate := .mk cd0 [leafCand 9] [] []

theorem tol_pos : (0 : ℚ) < 1 / 10 ^ 15 := by norm_num

/-- The consistency check passes on all-zero impact parameters (its first,
absolute-tolerance branch). -/
theorem check_zero : check_d0_z0 0 1 0 0 (fun _ => 0) = true := by
  simp [check_d0_z0, compare, tol_pos]

/-- Evaluation of the track projector on the concrete one-track array. -/
theorem ProcessTracks_trkCand :
    ProcessTracks 0 1 K0 [trkCand] =
      some [trackEntry K0 trkCand (leafCand 9)] := by
  simp [ProcessTracks, trkCand, cd0, check_zero]

/-- Witness for C4: on a concrete one-track array the track projector
succeeds and emits exactly one record. -/
theorem claim_C4_witness :
    ProcessTracks 0 1 K0 [trkCand] =
      some [trackEntry K0 trkCand (leafCand 9)]
    ∧ [trackEntry K0 trkCand (leafCand 9)].length = [trkCand].length := by
  refine ⟨ProcessTracks_trkCand, ?_⟩
  exact ((claim_C4 0 1 K0 (fun _ _ => true) [trkCand]).2.2.2.2.2.2.2.2.2.2
    [trackEntry K0 trkCand (leafCand 9)] ProcessTracks_trkCand).2

/-! Claim C5. -/

theorem foldl_add_eq (f : Candidate → ℚ) :
    ∀ (l : List Candidate) (a : ℚ),
      l.foldl (fun acc c => acc + f c) a = a + (l.map f).sum := by
  intro l
  induction l with
  | nil => intro a; simp
  | cons c r ih => intro a; simp [ih, add_assoc]

theorem sumEem_eq (l : List Candidate) :
    sumEem l = (l.map fun x => x.data.Eem).sum := by
  simpa using foldl_add_eq (fun x => x.data.Eem) l 0

theorem sumEhad_eq (l : List Candidate) :
    sumEhad l = (l.map fun x => x.data.Ehad).sum := by
  simpa using foldl_add_eq (fun x => x.data.Ehad) l 0

/-- C5: the photon record's `EhadOverEem` is `Ehad/Eem` when `Eem > 0` and
the sentinel 999.9 otherwise; the jet record's `EhadOverEem` is the ratio
of the `Ehad` and `Eem` sums over the jet's direct constituents, with the
sentinel 999.9 when the EM sum is zero; the electron record's ratio field
is always 0. -/
theorem claim_C5 (K : TMathLib) (c : Candidate) :
    (c.data.Eem > 0 →
      (photonEntry K c).EhadOverEem = c.data.Ehad / c.data.Eem)
    ∧ (¬ c.data.Eem > 0 → (photonEntry K c).EhadOverEem = 9999 / 10)
    ∧ (electronEntry K c).EhadOverEem = 0
    ∧ ((c.children.map fun x => x.data.Eem).sum > 0 →
        (jetEntry K c).EhadOverEem =
          (c.children.map fun x => x.data.Ehad).sum /
            (c.children.map fun x => x.data.Eem).sum)
    ∧ ((c.children.map fun x => x.data.Eem).sum = 0 →
        (jetEntry K c).EhadOverEem = 9999 / 10) := by
  have hjet : (jetEntry K c).EhadOverEem =
      if (c.children.map fun x => x.data.Eem).sum > 0 then
        (c.children.map fun x => x.data.Ehad).sum /
          (c.children.map fun x => x.data.Eem).sum
      else 9999 / 10 := by
    show (if sumEem c.children > 0 then
        sumEhad c.children / sumEem c.children else 9999 / 10) = _
    rw [sumEem_eq, sumEhad_eq]
  refine ⟨fun h => ?_, fun h => ?_, rfl, fun h => ?_, fun h => ?_⟩
  · show (if c.data.Eem > 0 then c.data.Ehad / c.data.Eem else 9999 / 10) = _
    rw [if_pos h]
  · show (if c.data.Eem > 0 then c.data.Ehad / c.data.Eem else 9999 / 10) = _
    rw [if_neg h]
  · rw [hjet, if_pos h]
  · rw [hjet, if_neg (by rw [h]; exact lt_irrefl 0)]

/-- Photon-class candidate with `Eem = 2`, `Ehad = 4`. -/
def phoCand : Candidate := .mk { cd0 with Eem := 2, Ehad := 4 } [] [] []

/-- Jet candidate whose single direct constituent is `phoCand`
(so its EM sum is 2 and its hadronic sum is 4). -/
def jetCand : Candidate := .mk cd0 [phoCand] [] []

/-- Witness for C5: on the concrete photon and jet candidates the positive
branches apply. -/
theorem claim_C5_witness :
    (photonEntry K0 phoCand).EhadOverEem = phoCand.data.Ehad / phoCand.data.Eem
    ∧ (jetEntry K0 jetCand).EhadOverEem =
        (jetCand.children.map fun x => x.data.Ehad).sum /
          (jetCand.children.map fun x => x.data.Eem).sum :=
  ⟨(claim_C5 K0 phoCand).1 (by simp [phoCand, cd0]),
   ((claim_C5 K0 jetCand).2.2.2.1 (by simp [jetCand, phoCand, cd0]))⟩

/-! Claim C6. -/

/-- Candidate with momentum (px=3, py=4, pz=0, E=5), the spec's
missing-energy example. -/
def metCand : Candidate := .mk { cd0 with Momentum := ⟨3, 4, 0, 5⟩ } [] [] []

/-- C6: a non-empty missing-energy array produces exactly one record, built
from the first array entry; its `MET` is the library transverse magnitude
of the candidate's momentum and its angle fields are computed from the
negated momentum vector.  In particular, for momentum (3, 4, 0, 5) — where
the library's transverse magnitude is 5 — the emitted record is `MET = 5`
with angles computed from (-3, -4, 0, -5). -/
theorem claim_C6 (K : TMathLib) (c : Candidate) (rest : List Candidate)
    (h5 : K.Pt ⟨3, 4, 0, 5⟩ = 5) :
    ProcessMissingET K (c :: rest) =
      [{ Eta := K.Eta (Vec4.neg c.data.Momentum)
         Phi := K.Phi (Vec4.neg c.data.Momentum)
         MET := K.Pt c.data.Momentum }]
    ∧ ProcessMissingET K [metCand] =
        [{ Eta := K.Eta ⟨-3, -4, 0, -5⟩
           Phi := K.Phi ⟨-3, -4, 0, -5⟩
           MET := 5 }] := by
  refine ⟨rfl, ?_⟩
  simp [ProcessMissingET, metCand, cd0, Vec4.neg, h5]

/-- Witness for C6: the kinematics stub `K5` has transverse magnitude 5 at
the example momentum, and the conclusion follows at it. -/
theorem claim_C6_witness :
    ProcessMissingET K5 (metCand :: []) =
      [{ Eta := K5.Eta (Vec4.neg metCand.data.Momentum)
         Phi := K5.Phi (Vec4.neg metCand.data.Momentum)
         MET := K5.Pt metCand.data.Momentum }]
    ∧ ProcessMissingET K5 [metCand] =
        [{ Eta := K5.Eta ⟨-3, -4, 0, -5⟩
           Phi := K5.Phi ⟨-3, -4, 0, -5⟩
           MET := 5 }] :=
  claim_C6 K5 metCand [] rfl

/-! Claim C7. -/

theorem ProcessEvent_length (iD0 iZ0 : Fin 5) (K : TMathLib)
    (cmp : Candidate → Candidate → Bool) :
    ∀ (reg : List RegEntry) (st stF : String → List Candidate)
      (outs : List (List OutRec)),
      ProcessEvent iD0 iZ0 K cmp reg st = some (stF, outs) →
      outs.length = reg.length := by
  intro reg
  induction reg with
  | nil =>
    intro st stF outs h
    simp only [ProcessEvent, Option.some.injEq, Prod.mk.injEq] at h
    rw [← h.2]
    rfl
  | cons e rest ih =>
    intro st stF outs h
    simp only [ProcessEvent] at h
    cases h2 : (runMethod iD0 iZ0 K cmp e.method (st e.inputArray)).2 with
    | none => rw [h2] at h; cases h
    | some out =>
      rw [h2] at h
      cases h3 : ProcessEvent iD0 iZ0 K cmp rest
          (updState st e.inputArray
            (runMethod iD0 iZ0 K cmp e.method (st e.inputArray)).1) with
      | none => rw [h3] at h; cases h
      | some p =>
        rw [h3] at h
        obtain ⟨stF', outs'⟩ := p
        simp only [Option.some.injEq, Prod.mk.injEq] at h
        rw [← h.2, List.length_cons, ih _ _ _ h3]
        rfl

/-- C7: a configuration triple whose class name does not resolve, or whose
class has no registered projector, is skipped without aborting — it
contributes no registry entry, every other resolvable triple still
contributes its entry in order, and each registered entry is then processed
(one output sink per registry entry). -/
theorem claim_C7 (resolve : String → Option TClassId) (params : List String) :
    InitRegistry resolve params =
      (toTriples params).filterMap (resolveTriple resolve)
    ∧ (∀ (ts1 ts2 : List (String × String × String)) t,
        resolveTriple resolve t = none →
        (ts1 ++ t :: ts2).filterMap (resolveTriple resolve) =
          (ts1 ++ ts2).filterMap (resolveTriple resolve))
    ∧ (∀ (ts1 ts2 : List (String × String × String)) t e,
        resolveTriple resolve t = some e →
        (ts1 ++ t :: ts2).filterMap (resolveTriple resolve) =
          ts1.filterMap (resolveTriple resolve) ++
            e :: ts2.filterMap (resolveTriple resolve))
    ∧ (∀ t, resolveTriple resolve t = none ↔
        (resolve t.2.2 = none
         ∨ ∃ cl, resolve t.2.2 = some cl ∧ fClassMap cl = none))
    ∧ (∀ (iD0 iZ0 : Fin 5) (K : TMathLib)
        (cmp : Candidate → Candidate → Bool)
        (st stF : String → List Candidate) (reg : List RegEntry)
        (outs : List (List OutRec)),
        ProcessEvent iD0 iZ0 K cmp reg st = some (stF, outs) →
        outs.length = reg.length) := by
  refine ⟨rfl, fun ts1 ts2 t h => ?_, fun ts1 ts2 t e h => ?_, fun t => ?_,
    fun iD0 iZ0 K cmp st stF reg outs h =>
      ProcessEvent_length iD0 iZ0 K cmp reg st stF outs h⟩
  · simp [List.filterMap_append, List.filterMap_cons, h]
  · simp [List.filterMap_append, List.filterMap_cons, h]
  · obtain ⟨inA, bn, cn⟩ := t
    cases hr : resolve cn with
    | none => simp [resolveTriple, hr]
    | some cl =>
      cases hm : fClassMap cl with
      | none => simp [resolveTriple, hr, hm]
      | some m => simp [resolveTriple, hr, hm]

/-- Resolver stub knowing only the class name "Vertex" (the external
`gROOT->GetClass`). -/
def resolveStd : String → Option TClassId :=
  fun s => if s = "Vertex" then some .vertexC else none

/-- One-entry registry used by the C7 witness. -/
def regV : List RegEntry := [⟨ProjKind.vertices, "a", "b"⟩]

/-- Witness for C7: the unresolvable triple contributes nothing while the
resolvable one survives, and a processed one-entry registry produces one
output sink. -/
theorem claim_C7_witness :
    ([("arr", "b1", "NoSuchClass"), ("arr2", "b2", "Vertex")].filterMap
        (resolveTriple resolveStd) =
      [("arr2", "b2", "Vertex")].filterMap (resolveTriple resolveStd))
    ∧ ([[]] : List (List OutRec)).length = regV.length := by
  refine ⟨?_, ?_⟩
  · exact (claim_C7 resolveStd []).2.1 [] [("arr2", "b2", "Vertex")]
      ("arr", "b1", "NoSuchClass") rfl
  · exact (claim_C7 resolveStd []).2.2.2.2 0 1 K0 (fun _ _ => true)
      (fun _ => []) (fun n => if n = "a" then [] else []) regV [[]] rfl

/-! Claim C8. -/

theorem updState_apply (st : String → List Candidate) (id : String)
    (a : List Candidate) (n : String) :
    updState st id a n = if n = id then a else st n := rfl

theorem updState_same (st : String → List Candidate) (id : String)
    (a : List Candidate) : updState st id a id = a := if_pos rfl

theorem updState_keep (st : String → List Candidate) (id : String)
    (a : List Candidate) (h : st id = a) : updState st id a = st := by
  funext n
  rw [updState_apply]
  by_cases hn : n = id
  · rw [if_pos hn, hn, h]
  · rw [if_neg hn]

theorem runMethod_fst (iD0 iZ0 : Fin 5) (K : TMathLib)
    (cmp : Candidate → Candidate → Bool) (k : ProjKind)
    (a : List Candidate) :
    (runMethod iD0 iZ0 K cmp k a).1 =
      if sortsInput k = true then sortCands cmp a else a := by
  cases k <;> rfl

theorem runMethod_congr_sort (iD0 iZ0 : Fin 5) (K : TMathLib)
    (cmp : Candidate → Candidate → Bool) (k : ProjKind)
    (a1 a2 : List Candidate) (hs : sortsInput k = true)
    (hsort : sortCands cmp a2 = sortCands cmp a1) :
    runMethod iD0 iZ0 K cmp k a2 = runMethod iD0 iZ0 K cmp k a1 := by
  cases k <;>
    simp_all [runMethod, sortsInput, ProcessPhotons, ProcessElectrons,
      ProcessMuons, ProcessJets]

/-- Sorting an already-sorted array leaves it unchanged, provided the
external comparator is transitive and total (the re-sort performed by a
second pass is a no-op). -/
theorem sortCands_idem (cmp : Candidate → Candidate → Bool)
    (htrans : ∀ a b c, cmpRel cmp a b → cmpRel cmp b c → cmpRel cmp a c)
    (htotal : ∀ a b, cmpRel cmp a b ∨ cmpRel cmp b a)
    (l : List Candidate) :
    sortCands cmp (sortCands cmp l) = sortCands cmp l := by
  haveI : IsTrans Candidate (cmpRel cmp) := ⟨htrans⟩
  haveI : IsTotal Candidate (cmpRel cmp) := ⟨htotal⟩
  exact List.Sorted.insertionSort_eq (List.sorted_insertionSort _ l)

/-- Arrays whose content is a fixpoint of the sort keep their value across
a whole event pass: every projector either leaves the array alone or
re-sorts it, which changes nothing for a sort fixpoint. -/
theorem ProcessEvent_fix (iD0 iZ0 : Fin 5) (K : TMathLib)
    (cmp : Candidate → Candidate → Bool) :
    ∀ (reg : List RegEntry) (st stF : String → List Candidate)
      (outs : List (List OutRec)) (id : String),
      sortCands cmp (st id) = st id →
      ProcessEvent iD0 iZ0 K cmp reg st = some (stF, outs) →
      stF id = st id := by
  intro reg
  induction reg with
  | nil =>
    intro st stF outs id hfix h
    simp only [ProcessEvent, Option.some.injEq, Prod.mk.injEq] at h
    rw [← h.1]
  | cons e rest ih =>
    intro st stF outs id hfix h
    simp only [ProcessEvent] at h
    cases h2 : (runMethod iD0 iZ0 K cmp e.method (st e.inputArray)).2 with
    | none => rw [h2] at h; cases h
    | some out =>
      rw [h2] at h
      cases h3 : ProcessEvent iD0 iZ0 K cmp rest
          (updState st e.inputArray
            (runMethod iD0 iZ0 K cmp e.method (st e.inputArray)).1) with
      | none => rw [h3] at h; cases h
      | some p =>
        obtain ⟨stF', outs'⟩ := p
        rw [h3] at h
        have hid : updState st e.inputArray
            (runMethod iD0 iZ0 K cmp e.method (st e.inputArray)).1 id =
            st id := by
          rw [updState_apply]
          by_cases hn : id = e.inputArray
          · rw [if_pos hn, runMethod_fst]
            by_cases hsort : sortsInput e.method = true
            · rw [if_pos hsort, ← hn, hfix]
            · rw [if_neg hsort, hn]
          · rw [if_neg hn]
        have hstep := ih (updState st e.inputArray
            (runMethod iD0 iZ0 K cmp e.method (st e.inputArray)).1)
          stF' outs' id (by rw [hid]; exact hfix) h3
        simp only [Option.some.injEq, Prod.mk.injEq] at h
        rw [← h.1, hstep, hid]

/-- Arrays touched only by non-sorting projectors keep their value across a
whole event pass. -/
theorem ProcessEvent_nosort (iD0 iZ0 : Fin 5) (K : TMathLib)
    (cmp : Candidate → Candidate → Bool) :
    ∀ (reg : List RegEntry) (st stF : String → List Candidate)
      (outs : List (List OutRec)) (id : String),
      (∀ e ∈ reg, e.inputArray = id → sortsInput e.method = false) →
      ProcessEvent iD0 iZ0 K cmp reg st = some (stF, outs) →
      stF id = st id := by
  intro reg
  induction reg with
  | nil =>
    intro st stF outs id hno h
    simp only [ProcessEvent, Option.some.injEq, Prod.mk.injEq] at h
    rw [← h.1]
  | cons e rest ih =>
    intro st stF outs id hno h
    simp only [ProcessEvent] at h
    cases h2 : (runMethod iD0 iZ0 K cmp e.method (st e.inputArray)).2 with
    | none => rw [h2] at h; cases h
    | some out =>
      rw [h2] at h
      cases h3 : ProcessEvent iD0 iZ0 K cmp rest
          (updState st e.inputArray
            (runMethod iD0 iZ0 K cmp e.method (st e.inputArray)).1) with
      | none => rw [h3] at h; cases h
      | some p =>
        obtain ⟨stF', outs'⟩ := p
        rw [h3] at h
        have hid : updState st e.inputArray
            (runMethod iD0 iZ0 K cmp e.method (st e.inputArray)).1 id =
            st id := by
          rw [updState_apply]
          by_cases hn : id = e.inputArray
          · rw [if_pos hn, runMethod_fst,
              if_neg (by
                rw [hno e (List.mem_cons_self e rest) hn.symm]
                exact Bool.false_ne_true), hn]
          · rw [if_neg hn]
        have hstep := ih (updState st e.inputArray
            (runMethod iD0 iZ0 K cmp e.method (st e.inputArray)).1)
          stF' outs' id
          (fun e' hm hid' => hno e' (List.mem_cons_of_mem e hm) hid') h3
        simp only [Option.some.injEq, Prod.mk.injEq] at h
        rw [← h.1, hstep, hid]

/-- C8 (amended): re-running the full per-event projection pass on the
state left behind by a first successful pass yields the same per-entry
output record sequences, provided the external sort comparator is
transitive and total and no input array is bound both to a sorting
projector (photon, electron, muon, jet) and to a non-sorting projector.
The only mutation a pass performs is the in-place re-sort, which is then
idempotent. -/
theorem claim_C8 (iD0 iZ0 : Fin 5) (K : TMathLib)
    (cmp : Candidate → Candidate → Bool)
    (htrans : ∀ a b c, cmpRel cmp a b → cmpRel cmp b c → cmpRel cmp a c)
    (htotal : ∀ a b, cmpRel cmp a b ∨ cmpRel cmp b a) :
    ∀ (reg : List RegEntry) (st stF : String → List Candidate)
      (outs : List (List OutRec)),
      (∀ e1 ∈ reg, ∀ e2 ∈ reg, sortsInput e1.method = true →
        sortsInput e2.method = false → e1.inputArray ≠ e2.inputArray) →
      ProcessEvent iD0 iZ0 K cmp reg st = some (stF, outs) →
      ∃ stF2, ProcessEvent iD0 iZ0 K cmp reg stF = some (stF2, outs) := by
  have hidem := sortCands_idem cmp htrans htotal
  intro reg
  induction reg with
  | nil =>
    intro st stF outs hshare h
    simp only [ProcessEvent, Option.some.injEq, Prod.mk.injEq] at h
    exact ⟨stF, by rw [← h.2]; rfl⟩
  | cons e rest ih =>
    intro st stF outs hshare h
    simp only [ProcessEvent] at h
    cases h2 : (runMethod iD0 iZ0 K cmp e.method (st e.inputArray)).2 with
    | none => rw [h2] at h; cases h
    | some out =>
      rw [h2] at h
      cases h3 : ProcessEvent iD0 iZ0 K cmp rest
          (updState st e.inputArray
            (runMethod iD0 iZ0 K cmp e.method (st e.inputArray)).1) with
      | none => rw [h3] at h; cases h
      | some p =>
        obtain ⟨stF', outs'⟩ := p
        rw [h3] at h
        simp only [Option.some.injEq, Prod.mk.injEq] at h
        obtain ⟨hstF, houts⟩ := h
        rw [hstF] at h3
        have hshare' : ∀ e1 ∈ rest, ∀ e2 ∈ rest,
            sortsInput e1.method = true → sortsInput e2.method = false →
            e1.inputArray ≠ e2.inputArray :=
          fun e1 h1 e2 hm2 =>
            hshare e1 (List.mem_cons_of_mem e h1) e2 (List.mem_cons_of_mem e hm2)
        by_cases hsort : sortsInput e.method = true
        · have hr1 : (runMethod iD0 iZ0 K cmp e.method (st e.inputArray)).1 =
              sortCands cmp (st e.inputArray) := by
            rw [runMethod_fst, if_pos hsort]
          have hupdid : updState st e.inputArray
              (runMethod iD0 iZ0 K cmp e.method (st e.inputArray)).1
              e.inputArray = sortCands cmp (st e.inputArray) := by
            rw [updState_same, hr1]
          have hfixid : sortCands cmp (updState st e.inputArray
              (runMethod iD0 iZ0 K cmp e.method (st e.inputArray)).1
              e.inputArray) = updState st e.inputArray
              (runMethod iD0 iZ0 K cmp e.method (st e.inputArray)).1
              e.inputArray := by
            rw [hupdid, hidem]
          have hfixres := ProcessEvent_fix iD0 iZ0 K cmp rest
            (updState st e.inputArray
              (runMethod iD0 iZ0 K cmp e.method (st e.inputArray)).1)
            stF outs' e.inputArray hfixid h3
          rw [hupdid] at hfixres
          have heq : runMethod iD0 iZ0 K cmp e.method (stF e.inputArray) =
              runMethod iD0 iZ0 K cmp e.method (st e.inputArray) := by
            apply runMethod_congr_sort iD0 iZ0 K cmp e.method _ _ hsort
            rw [hfixres, hidem]
          have hupd2 : updState stF e.inputArray
              (runMethod iD0 iZ0 K cmp e.method (st e.inputArray)).1 = stF :=
            updState_keep _ _ _ (by rw [hfixres, hr1])
          obtain ⟨stF2, ihres⟩ := ih (updState st e.inputArray
              (runMethod iD0 iZ0 K cmp e.method (st e.inputArray)).1)
            stF outs' hshare' h3
          exact ⟨stF2, by
            simp only [ProcessEvent, heq, h2, hupd2, ihres, houts]⟩
        · have hfalse : sortsInput e.method = false := by
            cases hb : sortsInput e.method with
            | false => rfl
            | true => exact absurd hb hsort
          have hr1 : (runMethod iD0 iZ0 K cmp e.method (st e.inputArray)).1 =
              st e.inputArray := by
            rw [runMethod_fst, if_neg hsort]
          have hupd1 : updState st e.inputArray
              (runMethod iD0 iZ0 K cmp e.method (st e.inputArray)).1 = st :=
            updState_keep _ _ _ hr1.symm
          rw [hupd1] at h3
          have hnos : ∀ e' ∈ rest, e'.inputArray = e.inputArray →
              sortsInput e'.method = false := by
            intro e' hm hid'
            cases hb : sortsInput e'.method with
            | false => rfl
            | true =>
              exact absurd hid' (hshare e' (List.mem_cons_of_mem e hm) e
                (List.mem_cons_self e rest) hb hfalse)
          have hstFid := ProcessEvent_nosort iD0 iZ0 K cmp rest st stF outs'
            e.inputArray hnos h3
          have heq : runMethod iD0 iZ0 K cmp e.method (stF e.inputArray) =
              runMethod iD0 iZ0 K cmp e.method (st e.inputArray) := by
            rw [hstFid]
          have hupd2 : updState stF e.inputArray
              (runMethod iD0 iZ0 K cmp e.method (st e.inputArray)).1 = stF :=
            updState_keep _ _ _ (by rw [hstFid, hr1])
          obtain ⟨stF2, ihres⟩ := ih st stF outs' hshare' h3
          exact ⟨stF2, by
            simp only [ProcessEvent, heq, h2, hupd2, ihres, houts]⟩

/-- Concrete comparator ordering candidates by unique identifier. -/
def cmpUID : Candidate → Candidate → Bool :=
  fun a b => a.data.UniqueID ≤ b.data.UniqueID

theorem cmpUID_trans : ∀ a b c, cmpRel cmpUID a b → cmpRel cmpUID b c →
    cmpRel cmpUID a c := by
  intro a b c h1 h2
  simp only [cmpRel, cmpUID, decide_eq_true_eq] at *
  exact le_trans h1 h2

theorem cmpUID_total : ∀ a b, cmpRel cmpUID a b ∨ cmpRel cmpUID b a := by
  intro a b
  simp only [cmpRel, cmpUID, decide_eq_true_eq]
  exact Nat.le_total _ _

/-- Witness for C8 (amended): a one-entry photon registry over an empty
bound array; the second pass reproduces the first pass's outputs. -/
theorem claim_C8_witness :
    ∃ stF2, ProcessEvent 0 1 K0 cmpUID [⟨ProjKind.photons, "a", "b"⟩]
      (fun n => if n = "a" then [] else []) = some (stF2, [[]]) :=
  claim_C8 0 1 K0 cmpUID cmpUID_trans cmpUID_total
    [⟨ProjKind.photons, "a", "b"⟩] (fun _ => [])
    (fun n => if n = "a" then [] else []) [[]] (by decide) rfl

/-- The output-sink sequences of an event pass (discarding the final array
state). -/
def outsOf (res : Option ((String → List Candidate) × List (List OutRec))) :
    Option (List (List OutRec)) := res.map Prod.snd

/-- Unique identifier of the first record of the first output sink, when
that record is a particle record. -/
def firstUID : Option (List (List OutRec)) → Option Nat
  | some ((OutRec.particle r :: _) :: _) => some r.UniqueID
  | _ => none

/-- Registry binding one input array to a particle branch and then to a
photon branch. -/
def c8reg : List RegEntry :=
  [⟨ProjKind.particles, "a", "b1"⟩, ⟨ProjKind.photons, "a", "b2"⟩]

/-- Event state binding that array to two candidates out of sort order. -/
def c8st : String → List Candidate :=
  fun n => if n = "a" then [leafCand 2, leafCand 1] else []

/-- First event pass on `c8reg` / `c8st`. -/
def c8run1 : Option ((String → List Candidate) × List (List OutRec)) :=
  ProcessEvent 0 1 K0 cmpUID c8reg c8st

/-- Second event pass, on the state the first pass left behind. -/
def c8run2 : Option ((String → List Candidate) × List (List OutRec)) :=
  c8run1.bind fun p => ProcessEvent 0 1 K0 cmpUID c8reg p.1

/-- Counterexample to C8: with one input array bound to both a particle
branch (processed first, no sort) and a photon branch (which re-sorts the
array in place), the first pass emits the particle records in the original
order (first unique id 2) while the second pass sees the array as sorted
by the first pass and emits them re-ordered (first unique id 1); the two
passes' outputs differ. -/
theorem claim_C8_counterexample :
    firstUID (outsOf c8run1) = some 2
    ∧ firstUID (outsOf c8run2) = some 1
    ∧ ¬ outsOf c8run1 = outsOf c8run2 := by
  refine ⟨rfl, rfl, fun h => ?_⟩
  have h2 := congrArg firstUID h
  rw [show firstUID (outsOf c8run1) = some 2 from rfl,
    show firstUID (outsOf c8run2) = some 1 from rfl] at h2
  exact absurd h2 (by decide)

/-! Claim C9. -/

/-- Counterexample to C9: a childless track candidate that satisfies the
impact-parameter tolerance relation still does not complete projection —
`candidate->GetCandidates()->At(0)` is a null pointer and its dereference
aborts the projector (modelled as `none`). -/
theorem claim_C9_counterexample :
    check_d0_z0 0 1 cdefault.data.Zd cdefault.data.Dxy cdefault.data.trkPar
      = true
    ∧ ProcessTracks 0 1 K0 [cdefault] = none := by
  constructor
  · exact check_zero
  · simp [ProcessTracks, cdefault, cd0, check_zero]

theorem ProcessTracks_total (iD0 iZ0 : Fin 5) (K : TMathLib) :
    ∀ l : List Candidate,
      (∀ c ∈ l, check_d0_z0 iD0 iZ0 c.data.Zd c.data.Dxy c.data.trkPar
        = true) →
      (∀ c ∈ l, c.children ≠ []) →
      ∃ out, ProcessTracks iD0 iZ0 K l = some out
        ∧ out.length = l.length := by
  intro l
  induction l with
  | nil => intro _ _; exact ⟨[], rfl, rfl⟩
  | cons c r ih =>
    intro hchk hchild
    obtain ⟨out, hout, hlen⟩ :=
      ih (fun x hx => hchk x (List.mem_cons_of_mem c hx))
        (fun x hx => hchild x (List.mem_cons_of_mem c hx))
    have hc := hchk c (List.mem_cons_self c r)
    have hcc := hchild c (List.mem_cons_self c r)
    cases hcl : c.children with
    | nil => exact absurd hcl hcc
    | cons particle cs =>
      refine ⟨trackEntry K c particle :: out, ?_, by simp [hlen]⟩
      simp [ProcessTracks, hc, hcl, hout]

/-- C9 (amended): the track projector copies `Zd`, `Dxy` and the `trkPar`
5-vector verbatim from the candidate, so the asserted relation — absolute
tolerance 1e-15 or relative tolerance 1e-9 between `Zd` and `trkPar[Z0]`
and between `Dxy` and `trkPar[D0]` — holds of the entry exactly when it
holds of the candidate.  If every input track candidate satisfies it, the
assertion-failure branch is unreachable, and if additionally every track
candidate has at least one child (its originating particle), projection
completes with one record per input. -/
theorem claim_C9 (iD0 iZ0 : Fin 5) (K : TMathLib) (l : List Candidate)
    (hchk : ∀ c ∈ l,
      check_d0_z0 iD0 iZ0 c.data.Zd c.data.Dxy c.data.trkPar = true)
    (hchild : ∀ c ∈ l, c.children ≠ []) :
    (∀ c particle : Candidate,
      (trackEntry K c particle).Zd = c.data.Zd
      ∧ (trackEntry K c particle).Dxy = c.data.Dxy
      ∧ (trackEntry K c particle).trkPar = c.data.trkPar)
    ∧ ∃ out, ProcessTracks iD0 iZ0 K l = some out
        ∧ out.length = l.length :=
  ⟨fun _ _ => ⟨rfl, rfl, rfl⟩,
   ProcessTracks_total iD0 iZ0 K l hchk hchild⟩

/-- Witness for C9: the concrete one-child track candidate satisfies both
preconditions, and its projection completes with one record. -/
theorem claim_C9_witness :
    ∃ out, ProcessTracks 0 1 K0 [trkCand] = some out
      ∧ out.length = [trkCand].length :=
  (claim_C9 0 1 K0 [trkCand] (by simp [trkCand, cd0, check_zero])
    (by simp [trkCand])).2

/-! Claim C10. -/

/-- C10: on an empty input array the singleton projectors (missing energy,
scalar sum, generator weight) emit no record and return normally — the
first-entry lookup is null-checked. -/
theorem claim_C10 (K : TMathLib) :
    ProcessMissingET K [] = []
    ∧ ProcessScalarHT [] = []
    ∧ ProcessWeight [] = [] :=
  ⟨rfl, rfl, rfl⟩

end TW
